import Mathlib

/-!
Verification development for the beepsat-monitoring-dashboard repository.

This file gives a shallow embedding, in Lean 4, of the statistics and
signal-processing helpers of `simple_stats_dashboard.py`, of the telemetry
line parsers of `telemetry_monitor.py` and `streamlit_dashboard.py`, of the
battery-voltage simulators of `simple_stats_dashboard.py` and
`enhanced_dashboard.py`, and of the session-state buffer operations of
`simple_stats_dashboard.py`, together with theorems settling the frozen
claims about those components.

Modelling conventions:
  * Python floats are modelled by exact arithmetic: `ℚ` where the code is
    purely rational, `ℝ` where it uses `math.log` / `math.exp` /
    `math.sqrt` (these become `Real.log` / `Real.exp` / `Real.sqrt`).
  * Python list indexing `l[i]` (always used in-bounds by the code) is
    modelled by `List.getD i 0`; slicing `l[a:b]` by `(l.drop a).take (b - a)`.
  * Fallible code that catches exceptions and returns `None` is modelled
    with `Option`.
-/

namespace SignalProcessor

/-- Entry of the `peak_properties` list built by `find_peaks`
(`simple_stats_dashboard.py`, lines 109-114). -/
structure PeakProps where
  prominence : ℚ
  width : ℕ
  left_base : ℕ
  right_base : ℕ
deriving DecidableEq, Repr

/-- Result dictionary of `SignalProcessor.find_peaks`
(`simple_stats_dashboard.py`, lines 116-121).  The `total_peaks` entry of the
Python dict is `peaks.length` and is left as a derived quantity. -/
structure PeaksResult where
  peaks : List ℕ
  peak_heights : List ℚ
  peak_properties : List PeakProps
deriving DecidableEq, Repr

/-- `SignalProcessor._calculate_prominence` (`simple_stats_dashboard.py`,
lines 146-166): height of the peak above the higher of the minima found
scanning left and right (each scan starts from the peak height itself). -/
def _calculate_prominence (values : List ℚ) (peak_idx : ℕ) : ℚ :=
  let peak_height := values.getD peak_idx 0
  let left_min := (values.take peak_idx).foldl min peak_height
  let right_min := (values.drop (peak_idx + 1)).foldl min peak_height
  peak_height - max left_min right_min

/-- `SignalProcessor._calculate_width` (`simple_stats_dashboard.py`,
lines 168-202): number of contiguous samples around the peak strictly above
the relative-height threshold, plus one.  The left (right) scan walks from
`peak_idx - 1` down (from `peak_idx + 1` up) and stops at the first value
`≤ threshold`. -/
def _calculate_width (values : List ℚ) (peak_idx : ℕ) (rel_height : ℚ := 1/2) : ℕ :=
  let peak_height := values.getD peak_idx 0
  let left_min := (values.take peak_idx).foldl min peak_height
  let right_min := (values.drop (peak_idx + 1)).foldl min peak_height
  let base_level := max left_min right_min
  let height_threshold := base_level + rel_height * (peak_height - base_level)
  let left_width :=
    ((values.take peak_idx).reverse.takeWhile (fun v => height_threshold < v)).length
  let right_width :=
    ((values.drop (peak_idx + 1)).takeWhile (fun v => height_threshold < v)).length
  left_width + right_width + 1

/-- The strict-local-maximum test of the `find_peaks` loop
(`simple_stats_dashboard.py`, line 97): `vals[i] > vals[i-1] and
vals[i] > vals[i+1]`. -/
def localMaxB (vals : List ℚ) (i : ℕ) : Bool :=
  decide (vals.getD (i - 1) 0 < vals.getD i 0) &&
  decide (vals.getD (i + 1) 0 < vals.getD i 0)

/-- The minimum-height filter of `find_peaks` (`simple_stats_dashboard.py`,
line 99): `min_height is None or vals[i] >= min_height`. -/
def heightOkB (vals : List ℚ) (min_height : Option ℚ) (i : ℕ) : Bool :=
  match min_height with
  | none => true
  | some mh => decide (mh ≤ vals.getD i 0)

/-- The minimum-distance filter of `find_peaks` (`simple_stats_dashboard.py`,
line 101): `not peaks or (i - peaks[-1]) >= min_distance`. -/
def distOkB (peaks : List ℕ) (min_distance : ℤ) (i : ℕ) : Bool :=
  match peaks.getLast? with
  | none => true
  | some p => decide (min_distance ≤ (i : ℤ) - (p : ℤ))

/-- One iteration of the `find_peaks` loop body
(`simple_stats_dashboard.py`, lines 95-114). -/
def peakStep (vals : List ℚ) (min_height : Option ℚ) (min_distance : ℤ)
    (acc : PeaksResult) (i : ℕ) : PeaksResult :=
  if localMaxB vals i && heightOkB vals min_height i &&
      distOkB acc.peaks min_distance i then
    let width := _calculate_width vals i
    { peaks := acc.peaks ++ [i]
      peak_heights := acc.peak_heights ++ [vals.getD i 0]
      peak_properties := acc.peak_properties ++
        [{ prominence := _calculate_prominence vals i
           width := width
           left_base := i - width / 2
           right_base := min (vals.length - 1) (i + width / 2) }] }
  else acc

/-- `SignalProcessor.find_peaks` (`simple_stats_dashboard.py`, lines 70-121):
scan interior indices `1 .. n-2` in order, collecting strict local maxima
that pass the height and distance filters. -/
def find_peaks (values : List ℚ) (min_height : Option ℚ := none)
    (min_distance : ℤ := 1) : PeaksResult :=
  if values.length < 3 then ⟨[], [], []⟩
  else (List.range' 1 (values.length - 2)).foldl
    (peakStep values min_height min_distance) ⟨[], [], []⟩

/-- Result dictionary of `SignalProcessor.fit_gaussian_peak`
(`simple_stats_dashboard.py`, lines 284-293 and 299-308). -/
structure FitResult where
  amplitude : ℝ
  center : ℝ
  sigma : ℝ
  baseline : ℝ
  r_squared : ℝ
  peak_area : ℝ
  fwhm : ℝ
  quality : String

/-- Window bounds of `fit_gaussian_peak` (`simple_stats_dashboard.py`,
lines 219-222): `window_size = min(10, n // 4)`,
`start = max(0, peak_idx - window_size)` (truncated `ℕ` subtraction),
`end = min(n, peak_idx + window_size + 1)`. -/
def fitWindow (y_data : List ℝ) (peak_idx : ℕ) : ℕ × ℕ :=
  let n := y_data.length
  let window_size := min 10 (n / 4)
  (peak_idx - window_size, min n (peak_idx + window_size + 1))

/-- The slice `data[start_idx:end_idx]` of `fit_gaussian_peak`
(`simple_stats_dashboard.py`, lines 224-225); the window is computed from
`y_data` and applied to both `x_data` and `y_data`. -/
def localSlice (data y_data : List ℝ) (peak_idx : ℕ) : List ℝ :=
  let w := fitWindow y_data peak_idx
  (data.drop w.1).take (w.2 - w.1)

/-- `baseline = (local_y[0] + local_y[-1]) / 2` (`simple_stats_dashboard.py`,
line 235). -/
noncomputable def fitBaseline (y_data : List ℝ) (peak_idx : ℕ) : ℝ :=
  let ly := localSlice y_data y_data peak_idx
  (ly.headD 0 + ly.getLastD 0) / 2

/-- `sigma_estimate = len(local_y) / 6` (`simple_stats_dashboard.py`,
line 239). -/
noncomputable def sigmaEst (y_data : List ℝ) (peak_idx : ℕ) : ℝ :=
  ((localSlice y_data y_data peak_idx).length : ℝ) / 6

/-- `x_squared`: the squares of the peak-centred local x values
(`simple_stats_dashboard.py`, lines 253-254). -/
noncomputable def xSquaredL (x_data y_data : List ℝ) (peak_idx : ℕ) : List ℝ :=
  ((localSlice x_data y_data peak_idx).map
    (fun x => x - x_data.getD peak_idx 0)).map (fun x => x * x)

/-- `log_y`: logs of the baseline-shifted local y values, floored at `0.001`
to avoid `log(0)` (`simple_stats_dashboard.py`, lines 246-250). -/
noncomputable def logYL (y_data : List ℝ) (peak_idx : ℕ) : List ℝ :=
  ((localSlice y_data y_data peak_idx).map
    (fun y => max (y - fitBaseline y_data peak_idx) 0.001)).map Real.log

/-- Determinant of the normal equations,
`n_points * sum_x4 - sum_x2 * sum_x2` (`simple_stats_dashboard.py`,
line 264): the quantity whose vanishing the code guards against before
dividing. -/
noncomputable def fitDet (x_data y_data : List ℝ) (peak_idx : ℕ) : ℝ :=
  let x_squared := xSquaredL x_data y_data peak_idx
  let n_points := ((logYL y_data peak_idx).length : ℝ)
  n_points * (x_squared.map (fun x => x * x)).sum - x_squared.sum * x_squared.sum

/-- The fitted log-space curvature `b` of the regression
`log(y) = a + b * x^2` (`simple_stats_dashboard.py`, line 265). -/
noncomputable def fit_b (x_data y_data : List ℝ) (peak_idx : ℕ) : ℝ :=
  let x_squared := xSquaredL x_data y_data peak_idx
  let log_y := logYL y_data peak_idx
  let n_points := (log_y.length : ℝ)
  let sum_x2y := (List.zipWith (fun u v => u * v) x_squared log_y).sum
  (n_points * sum_x2y - x_squared.sum * log_y.sum) / fitDet x_data y_data peak_idx

/-- The fitted log-space intercept `a` (`simple_stats_dashboard.py`,
line 266). -/
noncomputable def fit_a (x_data y_data : List ℝ) (peak_idx : ℕ) : ℝ :=
  let log_y := logYL y_data peak_idx
  (log_y.sum - fit_b x_data y_data peak_idx * (xSquaredL x_data y_data peak_idx).sum) /
    (log_y.length : ℝ)

/-- `SignalProcessor.fit_gaussian_peak` (`simple_stats_dashboard.py`,
lines 204-308), over exact real arithmetic.  Returns `none` when the local
window has fewer than 3 points; returns the fallback characterization
(lines 299-308, with `r_squared = 0`, `peak_area = 0`, `fwhm = 0`,
`quality = "poor"`) when the normal-equations determinant is zero; otherwise
returns the fitted parameters, substituting `sigma_estimate` for the width
when the curvature `b` is not negative (line 270).  Callers pass `x_data`
and `y_data` of equal length (`analyze_signal_peaks` passes
`indices = range(len(values))`), so `zipWith` products model the indexed
sums of lines 261 and 278. -/
noncomputable def fit_gaussian_peak (x_data y_data : List ℝ) (peak_idx : ℕ) :
    Option FitResult :=
  let local_x := localSlice x_data y_data peak_idx
  let local_y := localSlice y_data y_data peak_idx
  if local_y.length < 3 then none
  else
    let peak_center := x_data.getD peak_idx 0
    let baseline := fitBaseline y_data peak_idx
    if fitDet x_data y_data peak_idx ≠ 0 then
      let b := fit_b x_data y_data peak_idx
      let fitted_amplitude := Real.exp (fit_a x_data y_data peak_idx)
      let fitted_sigma :=
        if b < 0 then Real.sqrt (-(1/2) / b) else sigmaEst y_data peak_idx
      let y_pred := local_x.map (fun x =>
        fitted_amplitude * Real.exp (-(1/2) * ((x - peak_center) / fitted_sigma) ^ 2)
          + baseline)
      let ss_res := (List.zipWith (fun y yp => (y - yp) ^ 2) local_y y_pred).sum
      let y_mean := local_y.sum / (local_y.length : ℝ)
      let ss_tot := (local_y.map (fun y => (y - y_mean) ^ 2)).sum
      let r_squared := if 0 < ss_tot then 1 - ss_res / ss_tot else 0
      some
        { amplitude := fitted_amplitude
          center := peak_center
          sigma := fitted_sigma
          baseline := baseline
          r_squared := max 0 (min 1 r_squared)
          peak_area := fitted_amplitude * fitted_sigma * Real.sqrt (2 * Real.pi)
          fwhm := 2.355 * fitted_sigma
          quality :=
            if 0.8 < r_squared then "good"
            else if 0.5 < r_squared then "fair" else "poor" }
    else
      some
        { amplitude := y_data.getD peak_idx 0 - baseline
          center := peak_center
          sigma := sigmaEst y_data peak_idx
          baseline := baseline
          r_squared := 0
          peak_area := 0
          fwhm := 0
          quality := "poor" }

end SignalProcessor

namespace SimpleStatCalculator

/-- Result dictionary of `SimpleStatCalculator.calculate_stats`
(`simple_stats_dashboard.py`, lines 453-464).  The Python dict stores
`std = math.sqrt(variance)` and `cv = (std / abs(mean)) * 100`; those two
entries involve a square root, so the record keeps the radicand `variance`
and `Stats.std` / `Stats.cv` below are the real-valued projections. -/
structure Stats where
  count : ℕ
  mean : ℚ
  median : ℚ
  variance : ℚ
  min : ℚ
  max : ℚ
  range : ℚ
  slope : ℚ
  anomalies : List ℕ
deriving DecidableEq, Repr

/-- Python `min` of a (nonempty) list; 0 on the empty list, which the code
never passes to it. -/
def listMin : List ℚ → ℚ
  | [] => 0
  | x :: xs => xs.foldl min x

/-- Python `max` of a (nonempty) list; 0 on the empty list, which the code
never passes to it. -/
def listMax : List ℚ → ℚ
  | [] => 0
  | x :: xs => xs.foldl max x

/-- Insert into an ascending-sorted list (helper for `sortAsc`). -/
def insertSorted (x : ℚ) : List ℚ → List ℚ
  | [] => [x]
  | y :: ys => if x ≤ y then x :: y :: ys else y :: insertSorted x ys

/-- Python `sorted` on rationals: any correct ascending sort of a list of
rationals produces the same list, so insertion sort models it exactly. -/
def sortAsc (l : List ℚ) : List ℚ := l.foldr insertSorted []

/-- The non-`None` entries of the input, as floats
(`simple_stats_dashboard.py`, line 408: `[float(v) for v in values if v is
not None]`). -/
def vals (values : List (Option ℚ)) : List ℚ := values.filterMap id

/-- `mean_val = sum(vals) / n` (`simple_stats_dashboard.py`, line 413). -/
def meanVal (vs : List ℚ) : ℚ := vs.sum / (vs.length : ℚ)

/-- The radicand of the standard deviation: the sample variance
`sum((x - mean)^2) / (n - 1)` for `n > 1`, else `0`
(`simple_stats_dashboard.py`, line 419). -/
def varianceVal (vs : List ℚ) : ℚ :=
  if 1 < vs.length then
    (vs.map (fun x => (x - meanVal vs) ^ 2)).sum / (((vs.length - 1 : ℕ)) : ℚ)
  else 0

/-- `median_val` (`simple_stats_dashboard.py`, lines 423-427). -/
def medianVal (vs : List ℚ) : ℚ :=
  let n := vs.length
  let sorted_vals := sortAsc vs
  if n % 2 = 0 then
    (sorted_vals.getD (n / 2 - 1) 0 + sorted_vals.getD (n / 2) 0) / 2
  else sorted_vals.getD (n / 2) 0

/-- `slope`: the ordinary-least-squares trend slope against the sample index
(`simple_stats_dashboard.py`, lines 429-440). -/
def slopeVal (vs : List ℚ) : ℚ :=
  let n := vs.length
  if 2 < n then
    let x_mean : ℚ := ((List.range n).map (fun i : ℕ => (i : ℚ))).sum / (n : ℚ)
    let numerator :=
      ((List.range n).map
        (fun i : ℕ => ((i : ℚ) - x_mean) * (vs.getD i 0 - meanVal vs))).sum
    let denominator :=
      ((List.range n).map (fun i : ℕ => ((i : ℚ) - x_mean) ^ 2)).sum
    if denominator ≠ 0 then numerator / denominator else 0
  else 0

/-- `anomalies` (`simple_stats_dashboard.py`, lines 442-448).  The code
compares the z-score `abs(val - mean) / std` with `2.5` under the guard
`std > 0`; with `std = √variance` this is equivalent, over exact
arithmetic, to the rational test `(5/2)^2 * variance < (val - mean)^2`
under the guard `0 < variance`, which keeps the definition computable
(theorem `anomalies_iff_zscore` proves the equivalence in the z-score
form). -/
def anomaliesVal (vs : List ℚ) : List ℕ :=
  if 0 < varianceVal vs then
    (List.range vs.length).filter
      (fun i => (5/2 : ℚ) ^ 2 * varianceVal vs < (vs.getD i 0 - meanVal vs) ^ 2)
  else []

/-- The stats record built for a nonempty filtered value list
(`simple_stats_dashboard.py`, lines 453-464). -/
def statsOf (vs : List ℚ) : Stats :=
  { count := vs.length
    mean := meanVal vs
    median := medianVal vs
    variance := varianceVal vs
    min := listMin vs
    max := listMax vs
    range := listMax vs - listMin vs
    slope := slopeVal vs
    anomalies := anomaliesVal vs }

/-- `SimpleStatCalculator.calculate_stats` (`simple_stats_dashboard.py`,
lines 402-464).  Returns `none` for an empty input or an input with no
non-`None` entry; otherwise the stats record of the filtered values. -/
def calculate_stats (values : List (Option ℚ)) : Option Stats :=
  if values = [] then none
  else if vals values = [] then none
  else some (statsOf (vals values))

/-- The `std` entry of the stats dict: `math.sqrt(variance)`
(`simple_stats_dashboard.py`, line 420). -/
noncomputable def Stats.std (s : Stats) : ℝ := Real.sqrt (s.variance : ℝ)

/-- The `cv` entry of the stats dict: `(std / abs(mean)) * 100` when the
mean is nonzero, else `0` (`simple_stats_dashboard.py`, line 451). -/
noncomputable def Stats.cv (s : Stats) : ℝ :=
  if s.mean ≠ 0 then Stats.std s / |(s.mean : ℝ)| * 100 else 0

end SimpleStatCalculator

namespace BeepSatSimulator

/-- `BeepSatSimulator.get_battery_voltage` of `simple_stats_dashboard.py`
(lines 478-487).  The random draws are passed as parameters:
`noise = random.uniform(-0.15, 0.15)` and, when the 5% gate fires,
`spike = random.uniform(0.2, 0.6)` is added to the noise (`spike = none`
models the gate not firing).  The result is clamped by
`max(min(voltage, 8.0), 5.8)`. -/
def get_battery_voltage (start_time current_time noise : ℚ)
    (spike : Option ℚ) : ℚ :=
  let elapsed_hours := (current_time - start_time) / 3600
  let trend := -(2/100) * elapsed_hours
  let noise' := noise + spike.getD 0
  let voltage := 74/10 + trend + noise'
  max (min voltage 8) (29/5)

end BeepSatSimulator

namespace EnhancedSimulator

/-- `BeepSatSimulator.get_battery_voltage` of `enhanced_dashboard.py`
(lines 109-129): base 7.4, trend `-0.025` per elapsed hour,
`noise = random.uniform(-0.12, 0.12)`, plus either a positive spike
`random.uniform(0.3, 0.8)` or (elif) a negative spike
`-random.uniform(0.2, 0.5)`, modelled by the signed `anomaly` parameter
(`0` when neither gate fires).  The result is clamped by
`max(min(voltage, 8.2), 5.5)`. -/
def get_battery_voltage (start_time current_time noise anomaly : ℚ) : ℚ :=
  let elapsed_hours := (current_time - start_time) / 3600
  let trend := -(25/1000) * elapsed_hours
  let voltage := 74/10 + trend + noise + anomaly
  max (min voltage (41/5)) (11/2)

end EnhancedSimulator

section SessionStateBuffer

variable (α : Type)

/-- The Streamlit session-state fields of `simple_stats_dashboard.py` that
the buffer operations touch (`initialize_session_state`, lines 534-548).
`telemetry_data` is a `deque(maxlen=200)`, oldest sample first; `α` is the
type of telemetry samples (plain dictionaries in the code).  The wall-clock
fields (`mission_start_time`, `last_telemetry_time`) and the `simulator`
object do not affect the buffer and are not carried; the 0.5-second gate
that reads `last_telemetry_time` is modelled by the `timeOk` argument of
the `generate_telemetry_data` operation. -/
structure SessionState where
  monitoring : Bool
  telemetry_data : List α
  current_data : Option α
  data_points_generated : ℕ
deriving DecidableEq, Repr

variable {α}

/-- The buffer operations of `simple_stats_dashboard.py`:
`initialize_session_state` (lines 534-548, a no-op once the keys exist),
`start_monitoring` (550-556), `stop_monitoring` (558-560), `reset_mission`
(562-569) and `generate_telemetry_data` (571-582).  For
`generate_telemetry_data`, `telemetry` is the sample produced by the
simulator and `timeOk` is the outcome of the wall-clock test
`current_time - last_telemetry_time >= 0.5`. -/
inductive DashOp (α : Type) where
  | initialize_session_state
  | start_monitoring
  | stop_monitoring
  | reset_mission
  | generate_telemetry_data (telemetry : α) (timeOk : Bool)

/-- Append to a `deque` with the given `maxlen`: the new element goes on the
right and elements are evicted from the left until the length is at most
`maxlen`. -/
def dequeAppend (maxlen : ℕ) (buf : List α) (x : α) : List α :=
  (buf ++ [x]).drop (buf.length + 1 - maxlen)

/-- The state produced by `initialize_session_state` on a fresh session
(`simple_stats_dashboard.py`, lines 534-548). -/
def initState : SessionState α :=
  { monitoring := false
    telemetry_data := []
    current_data := none
    data_points_generated := 0 }

/-- Effect of one operation on the session state (`simple_stats_dashboard.py`,
lines 534-582).  `initialize_session_state` only installs missing keys, so it
is the identity on an initialized state; `start_monitoring` and
`generate_telemetry_data` are guarded exactly as in the code. -/
def applyOp (s : SessionState α) : DashOp α → SessionState α
  | .initialize_session_state => s
  | .start_monitoring =>
      if s.monitoring then s
      else { s with monitoring := true, data_points_generated := 0 }
  | .stop_monitoring => { s with monitoring := false }
  | .reset_mission =>
      { monitoring := false
        telemetry_data := []
        current_data := none
        data_points_generated := 0 }
  | .generate_telemetry_data x timeOk =>
      if s.monitoring && timeOk then
        { s with
          telemetry_data := dequeAppend 200 s.telemetry_data x
          current_data := some x
          data_points_generated := s.data_points_generated + 1 }
      else s

/-- Run a sequence of session operations from the freshly initialized
state. -/
def runDash (ops : List (DashOp α)) : SessionState α :=
  ops.foldl applyOp initState

/-- Ghost log: the samples appended to the buffer since the last
`reset_mission` (all of them, without the 200-sample bound), in generation
order, together with the session state.  Used to state what "the most recent
samples" means. -/
def runDashLog (ops : List (DashOp α)) : SessionState α × List α :=
  ops.foldl
    (fun p op =>
      ( applyOp p.1 op,
        match op with
        | .reset_mission => []
        | .generate_telemetry_data x timeOk =>
            if p.1.monitoring && timeOk then p.2 ++ [x] else p.2
        | _ => p.2 ))
    (initState, [])

/-- The samples generated since the last reset, in order. -/
def genLog (ops : List (DashOp α)) : List α := (runDashLog ops).2

end SessionStateBuffer

namespace TelemetryLine

/-- Left brace character (written via its code point). -/
def lbrace : Char := Char.ofNat 123

/-- Right brace character (written via its code point). -/
def rbrace : Char := Char.ofNat 125

/-- JSON whitespace, as accepted by Python's `json` decoder. -/
def isWs (c : Char) : Bool := c = ' ' || c = '\t' || c = '\n' || c = '\r'

/-- Drop leading JSON whitespace. -/
def skipWs (cs : List Char) : List Char := cs.dropWhile isWs

/-- Modelled from the spec: the values produced by the "standard decoder"
(`json.loads`) that parses the telemetry line protocol; the library decoder
itself is not part of the repository.  Numeric literals keep their validated
lexeme (Python would convert them to `int` / `float`); objects keep their
members as an ordered association list (Python builds a `dict`, keeping the
last binding of a repeated key — the telemetry lines never repeat keys). -/
inductive JsonValue where
  | null
  | bool (b : Bool)
  | num (lexeme : String)
  | str (s : String)
  | arr (elems : List JsonValue)
  | obj (members : List (String × JsonValue))

/-- Value of a hexadecimal digit. -/
def hexVal (c : Char) : Option ℕ :=
  if '0' ≤ c ∧ c ≤ '9' then some (c.toNat - 48)
  else if 'a' ≤ c ∧ c ≤ 'f' then some (c.toNat - 87)
  else if 'A' ≤ c ∧ c ≤ 'F' then some (c.toNat - 55)
  else none

/-- Body of a JSON string after the opening quote: JSON escapes are decoded,
unescaped control characters are rejected, and the accumulated characters
(kept reversed) are returned with the remaining input at the closing
quote. -/
def parseStringBody : ℕ → List Char → List Char → Option (String × List Char)
  | 0, _, _ => none
  | _ + 1, _, [] => none
  | fuel + 1, acc, c :: rest =>
    if c = '\"' then some (String.mk acc.reverse, rest)
    else if c = '\\' then
      match rest with
      | [] => none
      | e :: r2 =>
        if e = '\"' then parseStringBody fuel ('\"' :: acc) r2
        else if e = '\\' then parseStringBody fuel ('\\' :: acc) r2
        else if e = '/' then parseStringBody fuel ('/' :: acc) r2
        else if e = 'b' then parseStringBody fuel (Char.ofNat 8 :: acc) r2
        else if e = 'f' then parseStringBody fuel (Char.ofNat 12 :: acc) r2
        else if e = 'n' then parseStringBody fuel ('\n' :: acc) r2
        else if e = 'r' then parseStringBody fuel ('\r' :: acc) r2
        else if e = 't' then parseStringBody fuel ('\t' :: acc) r2
        else if e = 'u' then
          match r2 with
          | h1 :: h2 :: h3 :: h4 :: r3 =>
            match hexVal h1, hexVal h2, hexVal h3, hexVal h4 with
            | some a, some b, some c2, some d =>
                parseStringBody fuel (Char.ofNat (((a * 16 + b) * 16 + c2) * 16 + d) :: acc) r3
            | _, _, _, _ => none
          | _ => none
        else none
    else if c.toNat < 32 then none
    else parseStringBody fuel (c :: acc) rest

/-- Digits and sign-free part of a JSON number (also accepting `Infinity`,
which Python's decoder accepts by default): returns the consumed lexeme and
the remaining input. -/
def parseNumAfterSign (cs : List Char) : Option (List Char × List Char) :=
  match cs with
  | 'I' :: 'n' :: 'f' :: 'i' :: 'n' :: 'i' :: 't' :: 'y' :: r =>
      some ("Infinity".data, r)
  | c :: rest =>
    let intPart? : Option (List Char × List Char) :=
      if c = '0' then some ([c], rest)
      else if c.isDigit then
        some (c :: rest.takeWhile Char.isDigit, rest.dropWhile Char.isDigit)
      else none
    match intPart? with
    | none => none
    | some (ip, r1) =>
      let frac? : Option (List Char × List Char) :=
        match r1 with
        | '.' :: r2 =>
          let ds := r2.takeWhile Char.isDigit
          if ds.isEmpty then none
          else some ('.' :: ds, r2.dropWhile Char.isDigit)
        | _ => some ([], r1)
      match frac? with
      | none => none
      | some (fp, r2) =>
        let expPart? : Option (List Char × List Char) :=
          match r2 with
          | e :: r3 =>
            if e = 'e' ∨ e = 'E' then
              let signAndRest : List Char × List Char :=
                match r3 with
                | s :: r4 => if s = '+' ∨ s = '-' then ([s], r4) else ([], r3)
                | [] => ([], [])
              let ds := signAndRest.2.takeWhile Char.isDigit
              if ds.isEmpty then none
              else some (e :: signAndRest.1 ++ ds, signAndRest.2.dropWhile Char.isDigit)
            else some ([], r2)
          | [] => some ([], [])
        match expPart? with
        | none => none
        | some (ep, r3) => some (ip ++ fp ++ ep, r3)
  | [] => none

/-- A JSON number token, with optional leading minus sign. -/
def parseNumber (cs : List Char) : Option (JsonValue × List Char) :=
  match cs with
  | '-' :: rest =>
    match parseNumAfterSign rest with
    | some (ds, r) => some (.num (String.mk ('-' :: ds)), r)
    | none => none
  | _ =>
    match parseNumAfterSign cs with
    | some (ds, r) => some (.num (String.mk ds), r)
    | none => none

mutual

/-- A JSON value; the input must start at a non-whitespace character. -/
def parseValue : ℕ → List Char → Option (JsonValue × List Char)
  | 0, _ => none
  | fuel + 1, cs =>
    match cs with
    | [] => none
    | c :: rest =>
      if c = 'n' then
        match rest with
        | 'u' :: 'l' :: 'l' :: r => some (.null, r)
        | _ => none
      else if c = 't' then
        match rest with
        | 'r' :: 'u' :: 'e' :: r => some (.bool true, r)
        | _ => none
      else if c = 'f' then
        match rest with
        | 'a' :: 'l' :: 's' :: 'e' :: r => some (.bool false, r)
        | _ => none
      else if c = 'N' then
        match rest with
        | 'a' :: 'N' :: r => some (.num (String.mk ['N', 'a', 'N']), r)
        | _ => none
      else if c = '\"' then
        match parseStringBody (rest.length + 1) [] rest with
        | some (s, r) => some (.str s, r)
        | none => none
      else if c = lbrace then
        match skipWs rest with
        | d :: r2 => if d = rbrace then some (.obj [], r2) else parseMembers fuel (d :: r2) []
        | [] => none
      else if c = '[' then
        match skipWs rest with
        | d :: r2 => if d = ']' then some (.arr [], r2) else parseElems fuel (d :: r2) []
        | [] => none
      else parseNumber cs

/-- The members of a JSON object after the opening brace (and any
whitespace), given at least one member is present. -/
def parseMembers : ℕ → List Char → List (String × JsonValue) →
    Option (JsonValue × List Char)
  | 0, _, _ => none
  | fuel + 1, cs, acc =>
    match cs with
    | c :: rest =>
      if c = '\"' then
        match parseStringBody (rest.length + 1) [] rest with
        | some (key, r1) =>
          match skipWs r1 with
          | ':' :: r2 =>
            match parseValue fuel (skipWs r2) with
            | some (v, r3) =>
              match skipWs r3 with
              | d :: r4 =>
                if d = ',' then parseMembers fuel (skipWs r4) (acc ++ [(key, v)])
                else if d = rbrace then some (.obj (acc ++ [(key, v)]), r4)
                else none
              | [] => none
            | none => none
          | _ => none
        | none => none
      else none
    | [] => none

/-- The elements of a JSON array after the opening bracket (and any
whitespace), given at least one element is present. -/
def parseElems : ℕ → List Char → List JsonValue → Option (JsonValue × List Char)
  | 0, _, _ => none
  | fuel + 1, cs, acc =>
    match parseValue fuel cs with
    | some (v, r1) =>
      match skipWs r1 with
      | d :: r2 =>
        if d = ',' then parseElems fuel (skipWs r2) (acc ++ [v])
        else if d = ']' then some (.arr (acc ++ [v]), r2)
        else none
      | [] => none
    | none => none

end

/-- Modelled from the spec: `json.loads` on a character list — parse one
JSON value surrounded by optional whitespace; any trailing non-whitespace
("extra data") makes the whole decode fail, as in Python.  The fuel
`2 * (length + 1)` dominates the recursion depth, which consumes at least
one character every two fuel levels. -/
def json_loads_chars (cs : List Char) : Option JsonValue :=
  match parseValue (2 * (cs.length + 1)) (skipWs cs) with
  | some (v, rest) => if (skipWs rest).isEmpty then some v else none
  | none => none

/-- Does `hay` contain `needle` as a contiguous substring (Python's
`needle in hay`)? -/
def containsSub (needle : List Char) : List Char → Bool
  | [] => needle.isEmpty
  | c :: rest => needle.isPrefixOf (c :: rest) || containsSub needle rest

/-- `line[line.find(chr(123)):]` guarded by `find != -1`: the suffix of the
line starting at its first left brace, if any
(`telemetry_monitor.py`, lines 26-29). -/
def afterFirstBrace (l : List Char) : Option (List Char) :=
  let t := l.dropWhile (fun c => !(c == lbrace))
  if t.isEmpty then none else some t

/-- Index of the last right brace of a list, if any. -/
def lastRbraceIdx (l : List Char) : Option ℕ :=
  match l.reverse.findIdx? (fun c => c == rbrace) with
  | some k => some (l.length - 1 - k)
  | none => none

/-- Greedy regex match of "brace, any characters, brace" starting exactly at
the head of `l` (which must be a left brace): the match runs to the last
right brace reachable without crossing a newline (`.` does not match
newlines). -/
def greedyBraceMatch (l : List Char) : Option (List Char) :=
  match l with
  | [] => none
  | c :: rest =>
    let seg := rest.takeWhile (fun d => !(d == '\n'))
    match lastRbraceIdx seg with
    | some j => some (c :: seg.take (j + 1))
    | none => none

/-- Python's `re.search` for the pattern "brace, any characters, brace":
try each start position left to right; at a left brace take the greedy
match if one exists, otherwise keep scanning. -/
def regexBraceSearch : List Char → Option (List Char)
  | [] => none
  | c :: rest =>
    if c = lbrace then
      match greedyBraceMatch (c :: rest) with
      | some m => some m
      | none => regexBraceSearch rest
    else regexBraceSearch rest

end TelemetryLine

namespace SimpleTelemetryMonitor

open TelemetryLine

/-- `SimpleTelemetryMonitor.parse_telemetry_line` (`telemetry_monitor.py`,
lines 23-41): on a line containing `TELEMETRY_OUTPUT:` (or, failing that,
`TELEM:`), decode the JSON starting at the first left brace and running to
the end of the line; return `none` when there is no marker, no brace, or
the decode fails (the code catches `JSONDecodeError`). -/
def parse_telemetry_line (line : List Char) : Option JsonValue :=
  if containsSub "TELEMETRY_OUTPUT:".data line then
    match afterFirstBrace line with
    | some sub => json_loads_chars sub
    | none => none
  else if containsSub "TELEM:".data line then
    match afterFirstBrace line with
    | some sub => json_loads_chars sub
    | none => none
  else none

end SimpleTelemetryMonitor

namespace BeepSatStreamlitDashboard

open TelemetryLine

/-- `BeepSatStreamlitDashboard.parse_telemetry_line`
(`streamlit_dashboard.py`, lines 93-103): on a marker line, decode the
greedy regex match "brace, any characters, brace" (from the first left brace
to the last right brace), returning `none` when there is no match or the
decode fails. -/
def parse_telemetry_line (line : List Char) : Option JsonValue :=
  if containsSub "TELEMETRY_OUTPUT:".data line || containsSub "TELEM:".data line then
    match regexBraceSearch line with
    | some m => json_loads_chars m
    | none => none
  else none

end BeepSatStreamlitDashboard

/-! ## Theorems -/

/-- C8: for every call time and every outcome of the random draws, the
battery voltage of `simple_stats_dashboard.py` lies in `[5.8, 8.0]` volts
and the one of `enhanced_dashboard.py` lies in `[5.5, 8.2]` volts: each is
clamped by its script's own `max(min(..), ..)` bounds. -/
theorem battery_voltage_clamped (st ct noise : ℚ) (spike : Option ℚ)
    (st' ct' noise' anomaly : ℚ) :
    (29/5 ≤ BeepSatSimulator.get_battery_voltage st ct noise spike ∧
      BeepSatSimulator.get_battery_voltage st ct noise spike ≤ 8) ∧
    (11/2 ≤ EnhancedSimulator.get_battery_voltage st' ct' noise' anomaly ∧
      EnhancedSimulator.get_battery_voltage st' ct' noise' anomaly ≤ 41/5) := by
  unfold BeepSatSimulator.get_battery_voltage EnhancedSimulator.get_battery_voltage
  refine ⟨⟨le_max_right _ _, max_le (min_le_right _ _) (by norm_num)⟩,
    ⟨le_max_right _ _, max_le (min_le_right _ _) (by norm_num)⟩⟩

namespace SimpleStatCalculator

/-- C10: `calculate_stats` returns `None` exactly when the input has no
non-`None` entry (in particular on the empty list); otherwise its `count`
is the number of non-`None` entries, which is at least 1. -/
theorem calculate_stats_none_iff (values : List (Option ℚ)) :
    (calculate_stats values = none ↔ vals values = []) ∧
    ∀ s, calculate_stats values = some s →
      s.count = (vals values).length ∧ 1 ≤ s.count := by
  unfold calculate_stats
  by_cases h1 : values = []
  · subst h1
    simp [vals]
  · simp only [if_neg h1]
    by_cases h2 : vals values = []
    · simp [h2]
    · simp only [if_neg h2]
      refine ⟨by simp [h2], ?_⟩
      rintro s hs
      obtain rfl := Option.some.inj hs
      exact ⟨rfl, List.length_pos.2 h2⟩

/-- C10 witness: on the one-sample input `[4]` the stats are defined, the
count is the number of non-`None` entries, and it is at least 1. -/
theorem calculate_stats_none_iff_witness :
    (statsOf (vals [some (4:ℚ)])).count = (vals [some (4:ℚ)]).length ∧
    1 ≤ (statsOf (vals [some (4:ℚ)])).count :=
  (calculate_stats_none_iff [some (4:ℚ)]).2 (statsOf (vals [some (4:ℚ)])) rfl

/-- Inversion for `calculate_stats`: a defined result comes from a nonempty
filtered value list and is exactly `statsOf` of it. -/
theorem calculate_stats_some_inv {values : List (Option ℚ)} {s : Stats}
    (h : calculate_stats values = some s) :
    vals values ≠ [] ∧ s = statsOf (vals values) := by
  unfold calculate_stats at h
  split_ifs at h with h1 h2
  exact ⟨h2, (Option.some.inj h).symm⟩

/-- A left fold by `min` is at most its initial value. -/
theorem foldl_min_le_init (a : ℚ) (l : List ℚ) : l.foldl min a ≤ a := by
  induction l generalizing a with
  | nil => exact le_refl a
  | cons b bs ih => exact le_trans (ih (min a b)) (min_le_left a b)

/-- A left fold by `min` is at most every member of the list. -/
theorem foldl_min_le_mem {l : List ℚ} {y : ℚ} (a : ℚ) (hy : y ∈ l) :
    l.foldl min a ≤ y := by
  induction l generalizing a with
  | nil => cases hy
  | cons b bs ih =>
    rcases List.mem_cons.1 hy with rfl | hmem
    · exact le_trans (foldl_min_le_init (min a y) bs) (min_le_right a y)
    · exact ih (min a b) hmem

/-- A left fold by `max` is at least its initial value. -/
theorem init_le_foldl_max (a : ℚ) (l : List ℚ) : a ≤ l.foldl max a := by
  induction l generalizing a with
  | nil => exact le_refl a
  | cons b bs ih => exact le_trans (le_max_left a b) (ih (max a b))

/-- A left fold by `max` is at least every member of the list. -/
theorem mem_le_foldl_max {l : List ℚ} {y : ℚ} (a : ℚ) (hy : y ∈ l) :
    y ≤ l.foldl max a := by
  induction l generalizing a with
  | nil => cases hy
  | cons b bs ih =>
    rcases List.mem_cons.1 hy with rfl | hmem
    · exact le_trans (le_max_right a y) (init_le_foldl_max (max a y) bs)
    · exact ih (max a b) hmem

/-- `listMin` is a lower bound of the list. -/
theorem listMin_le_of_mem {l : List ℚ} {y : ℚ} (hy : y ∈ l) : listMin l ≤ y := by
  cases l with
  | nil => cases hy
  | cons x xs =>
    rcases List.mem_cons.1 hy with rfl | hmem
    · exact foldl_min_le_init y xs
    · exact foldl_min_le_mem x hmem

/-- `listMax` is an upper bound of the list. -/
theorem le_listMax_of_mem {l : List ℚ} {y : ℚ} (hy : y ∈ l) : y ≤ listMax l := by
  cases l with
  | nil => cases hy
  | cons x xs =>
    rcases List.mem_cons.1 hy with rfl | hmem
    · exact init_le_foldl_max y xs
    · exact mem_le_foldl_max x hmem

/-- A common lower bound of the members bounds the sum from below. -/
theorem mul_length_le_sum {l : List ℚ} {c : ℚ} (h : ∀ x ∈ l, c ≤ x) :
    c * l.length ≤ l.sum := by
  induction l with
  | nil => simp
  | cons x xs ih =>
    have hx := h x (List.mem_cons_self x xs)
    have hxs := ih (fun y hy => h y (List.mem_cons_of_mem x hy))
    simp only [List.sum_cons, List.length_cons]
    push_cast
    nlinarith [hx, hxs]

/-- A common upper bound of the members bounds the sum from above. -/
theorem sum_le_mul_length {l : List ℚ} {c : ℚ} (h : ∀ x ∈ l, x ≤ c) :
    l.sum ≤ c * l.length := by
  induction l with
  | nil => simp
  | cons x xs ih =>
    have hx := h x (List.mem_cons_self x xs)
    have hxs := ih (fun y hy => h y (List.mem_cons_of_mem x hy))
    simp only [List.sum_cons, List.length_cons]
    push_cast
    nlinarith [hx, hxs]

/-- C2: for every input on which `calculate_stats` is defined (a nonempty
sequence with at least one non-`None` entry), the reported mean lies in the
closed interval between the reported min and max. -/
theorem mean_between_min_max (values : List (Option ℚ)) (s : Stats)
    (h : calculate_stats values = some s) : s.min ≤ s.mean ∧ s.mean ≤ s.max := by
  obtain ⟨hne, rfl⟩ := calculate_stats_some_inv h
  have hlpos : (0:ℚ) < (vals values).length := by
    exact_mod_cast List.length_pos.2 hne
  constructor
  · show listMin (vals values) ≤ meanVal (vals values)
    rw [meanVal, le_div_iff₀ hlpos]
    exact mul_length_le_sum (fun x hx => listMin_le_of_mem hx)
  · show meanVal (vals values) ≤ listMax (vals values)
    rw [meanVal, div_le_iff₀ hlpos]
    exact sum_le_mul_length (fun x hx => le_listMax_of_mem hx)

/-- C2 witness: on `[1, 2]` the stats are defined and the mean `3/2` lies
between min `1` and max `2`. -/
theorem mean_between_min_max_witness :
    (statsOf (vals [some (1:ℚ), some 2])).min ≤ (statsOf (vals [some (1:ℚ), some 2])).mean ∧
    (statsOf (vals [some (1:ℚ), some 2])).mean ≤ (statsOf (vals [some (1:ℚ), some 2])).max :=
  mean_between_min_max [some (1:ℚ), some 2] _ rfl

/-- The sample variance is non-negative (sum of squares over a non-negative
denominator). -/
theorem varianceVal_nonneg (vs : List ℚ) : 0 ≤ varianceVal vs := by
  rw [varianceVal]
  split_ifs with h
  · exact div_nonneg
      (List.sum_nonneg (by
        intro x hx
        obtain ⟨y, -, rfl⟩ := List.mem_map.1 hx
        exact sq_nonneg _))
      (by positivity)
  · exact le_refl 0

/-- C3: whenever `calculate_stats` is defined, the reported standard
deviation `std = sqrt(variance)` is non-negative, and it is `0` when the
sequence has exactly one element (the code sets the variance to `0` for
`n = 1`). -/
theorem std_nonneg (values : List (Option ℚ)) (s : Stats)
    (h : calculate_stats values = some s) :
    0 ≤ s.std ∧ (s.count = 1 → s.std = 0) := by
  obtain ⟨hne, rfl⟩ := calculate_stats_some_inv h
  refine ⟨Real.sqrt_nonneg _, fun hc => ?_⟩
  have hc' : (vals values).length = 1 := hc
  have hv : varianceVal (vals values) = 0 := by
    simp [varianceVal, hc']
  have hstd : (statsOf (vals values)).std
      = Real.sqrt ((varianceVal (vals values) : ℚ) : ℝ) := rfl
  rw [hstd, hv]
  simp

/-- C3 witness: on the singleton input `[5]` the stats are defined, the
standard deviation is non-negative, and (count being 1) it equals 0. -/
theorem std_nonneg_witness :
    0 ≤ (statsOf (vals [some (5:ℚ)])).std ∧
    ((statsOf (vals [some (5:ℚ)])).count = 1 → (statsOf (vals [some (5:ℚ)])).std = 0) :=
  std_nonneg [some (5:ℚ)] _ rfl

/-- C4: whenever `calculate_stats` is defined, an index `i` of the filtered
sequence is flagged in `anomalies` if and only if the standard deviation is
strictly positive and the z-score `|value_i - mean| / std` exceeds `2.5`;
consequently the anomaly list is empty whenever the standard deviation is
zero. -/
theorem anomalies_iff_zscore (values : List (Option ℚ)) (s : Stats)
    (h : calculate_stats values = some s) :
    (∀ i, i < s.count →
      (i ∈ s.anomalies ↔
        0 < s.std ∧
          (2.5 : ℝ) < |((vals values).getD i 0 : ℝ) - (s.mean : ℝ)| / s.std)) ∧
    (s.std = 0 → s.anomalies = []) := by
  obtain ⟨hne, rfl⟩ := calculate_stats_some_inv h
  have hvnn : 0 ≤ varianceVal (vals values) := varianceVal_nonneg (vals values)
  have hvnn' : (0:ℝ) ≤ ((varianceVal (vals values) : ℚ) : ℝ) := by exact_mod_cast hvnn
  have hstd : (statsOf (vals values)).std
      = Real.sqrt ((varianceVal (vals values) : ℚ) : ℝ) := rfl
  have hanom : (statsOf (vals values)).anomalies = anomaliesVal (vals values) := rfl
  have hmean : (statsOf (vals values)).mean = meanVal (vals values) := rfl
  constructor
  · intro i hi
    have hi' : i < (vals values).length := hi
    rw [hanom, hstd, hmean]
    by_cases hv : 0 < varianceVal (vals values)
    · have hσpos : (0:ℝ) < Real.sqrt ((varianceVal (vals values) : ℚ) : ℝ) :=
        Real.sqrt_pos.2 (by exact_mod_cast hv)
      have hmemiff : i ∈ anomaliesVal (vals values) ↔
          (5/2 : ℚ) ^ 2 * varianceVal (vals values) <
            ((vals values).getD i 0 - meanVal (vals values)) ^ 2 := by
        simp [anomaliesVal, hv, List.mem_filter, List.mem_range, hi']
      rw [hmemiff]
      have key : (5/2 : ℚ) ^ 2 * varianceVal (vals values) <
            ((vals values).getD i 0 - meanVal (vals values)) ^ 2 ↔
          (2.5 : ℝ) < |((vals values).getD i 0 : ℝ) - (meanVal (vals values) : ℝ)| /
            Real.sqrt ((varianceVal (vals values) : ℚ) : ℝ) := by
        rw [lt_div_iff₀ hσpos]
        rw [show ((5/2 : ℚ) ^ 2 * varianceVal (vals values) <
              ((vals values).getD i 0 - meanVal (vals values)) ^ 2) ↔
            ((5/2 : ℝ) ^ 2 * ((varianceVal (vals values) : ℚ) : ℝ) <
              (((vals values).getD i 0 : ℝ) - (meanVal (vals values) : ℝ)) ^ 2) by
          rw [← Rat.cast_lt (K := ℝ)]; push_cast; rw [Iff.comm]]
        rw [show ((2.5:ℝ) * Real.sqrt ((varianceVal (vals values) : ℚ) : ℝ) <
              |((vals values).getD i 0 : ℝ) - (meanVal (vals values) : ℝ)|) ↔
            (((2.5:ℝ) * Real.sqrt ((varianceVal (vals values) : ℚ) : ℝ)) ^ 2 <
              |((vals values).getD i 0 : ℝ) - (meanVal (vals values) : ℝ)| ^ 2) from
          (pow_lt_pow_iff_left₀ (by positivity) (abs_nonneg _) two_ne_zero).symm]
        rw [sq_abs, mul_pow, Real.sq_sqrt hvnn']
        norm_num
      rw [key]
      simp [hσpos]
    · have hv0 : varianceVal (vals values) = 0 := le_antisymm (not_lt.1 hv) hvnn
      simp [anomaliesVal, hv, hv0]
  · intro h0
    have hv0 : varianceVal (vals values) = 0 := by
      have := (Real.sqrt_eq_zero hvnn').1 (by rw [← hstd]; exact h0)
      exact_mod_cast this
    rw [hanom]
    simp [anomaliesVal, hv0]

/-- C4 witness: on the constant input `[1, 1, 1]` the stats are defined, the
index 0 is flagged iff its z-score test passes (here: not flagged, the
standard deviation being zero), and the anomaly list is empty because the
standard deviation is zero. -/
theorem anomalies_iff_zscore_witness :
    (0 ∈ (statsOf (vals [some (1:ℚ), some 1, some 1])).anomalies ↔
      0 < (statsOf (vals [some (1:ℚ), some 1, some 1])).std ∧
        (2.5 : ℝ) < |((vals [some (1:ℚ), some 1, some 1]).getD 0 0 : ℝ) -
          ((statsOf (vals [some (1:ℚ), some 1, some 1])).mean : ℝ)| /
          (statsOf (vals [some (1:ℚ), some 1, some 1])).std) ∧
    ((statsOf (vals [some (1:ℚ), some 1, some 1])).std = 0 →
      (statsOf (vals [some (1:ℚ), some 1, some 1])).anomalies = []) :=
  ⟨(anomalies_iff_zscore [some (1:ℚ), some 1, some 1] _ rfl).1 0 (by decide),
   (anomalies_iff_zscore [some (1:ℚ), some 1, some 1] _ rfl).2⟩

end SimpleStatCalculator

section SessionStateTheorems

variable {α : Type}

/-- Appending to the suffix-of-length-at-most-200 of a log keeps it the
suffix-of-length-at-most-200 of the extended log. -/
theorem dequeAppend_drop (log : List α) (x : α) :
    dequeAppend 200 (log.drop (log.length - 200)) x
      = (log ++ [x]).drop ((log ++ [x]).length - 200) := by
  unfold dequeAppend
  by_cases h : log.length ≤ 200
  · have h0 : log.length - 200 = 0 := by omega
    simp [h0]
  · have hd : (log.drop (log.length - 200)).length = 200 := by
      rw [List.length_drop]; omega
    have e1 : (log.drop (log.length - 200)).length + 1 - 200 = 1 := by omega
    rw [e1]
    have hle1 : 1 ≤ (log.drop (log.length - 200)).length := by omega
    rw [List.drop_append_of_le_length hle1, List.drop_drop]
    have e2 : (log ++ [x]).length - 200 = log.length - 200 + 1 := by
      rw [List.length_append, List.length_singleton]; omega
    rw [e2]
    have hle2 : log.length - 200 + 1 ≤ log.length := by omega
    rw [List.drop_append_of_le_length hle2]

/-- The state component of `runDashLog` is the plain run of the
operations. -/
theorem runDashLog_fst (ops : List (DashOp α)) :
    (runDashLog ops).1 = runDash ops := by
  suffices h : ∀ (l : List (DashOp α)) (s : SessionState α) (log : List α),
      (l.foldl
        (fun p op =>
          ( applyOp p.1 op,
            match op with
            | .reset_mission => []
            | .generate_telemetry_data x timeOk =>
                if p.1.monitoring && timeOk then p.2 ++ [x] else p.2
            | _ => p.2 ))
        (s, log)).1 = l.foldl applyOp s by
    exact h ops initState []
  intro l
  induction l with
  | nil => intro s log; rfl
  | cons op l ih => intro s log; exact ih _ _

/-- The buffer invariant: along any run, the telemetry buffer is the
at-most-200-sample suffix of the ghost log of generated samples. -/
theorem buffer_eq_log_suffix (ops : List (DashOp α)) :
    (runDashLog ops).1.telemetry_data
      = (runDashLog ops).2.drop ((runDashLog ops).2.length - 200) := by
  suffices h : ∀ (l : List (DashOp α)) (s : SessionState α) (log : List α),
      s.telemetry_data = log.drop (log.length - 200) →
      (l.foldl
        (fun p op =>
          ( applyOp p.1 op,
            match op with
            | .reset_mission => []
            | .generate_telemetry_data x timeOk =>
                if p.1.monitoring && timeOk then p.2 ++ [x] else p.2
            | _ => p.2 ))
        (s, log)).1.telemetry_data
        = (l.foldl
            (fun p op =>
              ( applyOp p.1 op,
                match op with
                | .reset_mission => []
                | .generate_telemetry_data x timeOk =>
                    if p.1.monitoring && timeOk then p.2 ++ [x] else p.2
                | _ => p.2 ))
            (s, log)).2.drop
            ((l.foldl
              (fun p op =>
                ( applyOp p.1 op,
                  match op with
                  | .reset_mission => []
                  | .generate_telemetry_data x timeOk =>
                      if p.1.monitoring && timeOk then p.2 ++ [x] else p.2
                  | _ => p.2 ))
              (s, log)).2.length - 200) by
    exact h ops initState [] (by simp [initState])
  intro l
  induction l with
  | nil => intro s log hs; exact hs
  | cons op l ih =>
    intro s log hs
    cases op with
    | initialize_session_state => exact ih _ _ hs
    | start_monitoring =>
      refine ih _ _ ?_
      simp only [applyOp]
      split_ifs <;> exact hs
    | stop_monitoring => exact ih _ _ hs
    | reset_mission => exact ih _ _ (by simp [applyOp])
    | generate_telemetry_data x timeOk =>
      refine ih _ _ ?_
      simp only [applyOp]
      by_cases hg : s.monitoring && timeOk
      · simp only [hg, if_true]
        rw [hs]
        exact dequeAppend_drop log x
      · simp only [hg, if_false]
        exact hs

/-- C7: after any sequence of session operations the telemetry buffer of
`simple_stats_dashboard.py` holds at most 200 samples; it is exactly the
most-recent-at-most-200 suffix, in generation order, of the samples
generated since the last `reset_mission` (so appending to a full buffer
evicts the oldest); and a final `reset_mission` leaves it empty. -/
theorem telemetry_buffer_bounded (α : Type) (ops : List (DashOp α)) :
    (runDash ops).telemetry_data.length ≤ 200 ∧
    (runDash ops).telemetry_data
      = (genLog ops).drop ((genLog ops).length - 200) ∧
    (runDash (ops ++ [DashOp.reset_mission])).telemetry_data = [] := by
  have hmain : (runDash ops).telemetry_data
      = (genLog ops).drop ((genLog ops).length - 200) := by
    rw [← runDashLog_fst]
    exact buffer_eq_log_suffix ops
  refine ⟨?_, hmain, ?_⟩
  · rw [hmain, List.length_drop]
    omega
  · rw [runDash, List.foldl_append]
    rfl

end SessionStateTheorems

namespace SignalProcessor

/-- The last entry of a list is a member. -/
theorem mem_of_getLast?_eq {l : List ℕ} {p : ℕ} (h : l.getLast? = some p) :
    p ∈ l := by
  have hx : p ∈ l.getLast? := h
  obtain ⟨hne, rfl⟩ := List.mem_getLast?_eq_getLast hx
  exact List.getLast_mem hne

/-- Invariant of the `find_peaks` scan: every accepted index is an interior
strict local maximum passing the height filter, and consecutive accepted
indices are at least `min_distance` apart. -/
theorem peaks_foldl_inv (vals : List ℚ) (mh : Option ℚ) (md : ℤ) :
    ∀ (l : List ℕ) (acc : PeaksResult),
      (∀ i ∈ l, 1 ≤ i ∧ i + 1 < vals.length) →
      (∀ i ∈ acc.peaks, 1 ≤ i ∧ i + 1 < vals.length ∧
        localMaxB vals i = true ∧ heightOkB vals mh i = true) →
      List.Chain' (fun (p q : ℕ) => md ≤ (q : ℤ) - (p : ℤ)) acc.peaks →
      (∀ i ∈ (l.foldl (peakStep vals mh md) acc).peaks,
        1 ≤ i ∧ i + 1 < vals.length ∧
        localMaxB vals i = true ∧ heightOkB vals mh i = true) ∧
      List.Chain' (fun (p q : ℕ) => md ≤ (q : ℤ) - (p : ℤ))
        (l.foldl (peakStep vals mh md) acc).peaks := by
  intro l
  induction l with
  | nil => intro acc _ hacc hch; exact ⟨hacc, hch⟩
  | cons i l ih =>
    intro acc hl hacc hch
    have hi := hl i (List.mem_cons_self i l)
    have hl' : ∀ j ∈ l, 1 ≤ j ∧ j + 1 < vals.length :=
      fun j hj => hl j (List.mem_cons_of_mem i hj)
    rw [List.foldl_cons]
    by_cases hc :
        (localMaxB vals i && heightOkB vals mh i && distOkB acc.peaks md i) = true
    · have hstep : (peakStep vals mh md acc i).peaks = acc.peaks ++ [i] := by
        simp only [peakStep, if_pos hc]
      have hb := hc
      simp only [Bool.and_eq_true] at hb
      refine ih (peakStep vals mh md acc i) hl' ?_ ?_
      · intro j hj
        rw [hstep] at hj
        rcases List.mem_append.1 hj with hj | hj
        · exact hacc j hj
        · rcases List.mem_singleton.1 hj with rfl
          exact ⟨hi.1, hi.2, hb.1.1, hb.1.2⟩
      · rw [hstep, List.chain'_append]
        refine ⟨hch, List.chain'_singleton i, ?_⟩
        intro x hx y hy
        have hy' : i = y := by simpa using hy
        subst hy'
        have hx' : acc.peaks.getLast? = some x := hx
        have hd := hb.2
        rw [distOkB, hx'] at hd
        simpa using hd
    · have hstep : peakStep vals mh md acc i = acc := by
        simp only [peakStep, if_neg hc]
      rw [hstep]
      exact ih acc hl' hacc hch

/-- C9: every index reported by `find_peaks` is an interior strict local
maximum that meets the `min_height` threshold when one is given; consecutive
reported peaks are at least `min_distance` apart; and an input of fewer than
3 samples yields no peaks. -/
theorem find_peaks_sound (values : List ℚ) (min_height : Option ℚ)
    (min_distance : ℤ) :
    (∀ i ∈ (find_peaks values min_height min_distance).peaks,
      1 ≤ i ∧ i + 1 < values.length ∧
      values.getD (i - 1) 0 < values.getD i 0 ∧
      values.getD (i + 1) 0 < values.getD i 0 ∧
      ∀ mh, min_height = some mh → mh ≤ values.getD i 0) ∧
    List.Chain' (fun (p q : ℕ) => min_distance ≤ (q : ℤ) - (p : ℤ))
      (find_peaks values min_height min_distance).peaks ∧
    (values.length < 3 → (find_peaks values min_height min_distance).peaks = []) := by
  by_cases h3 : values.length < 3
  · simp only [find_peaks, if_pos h3]
    simp
  · simp only [find_peaks, if_neg h3]
    have hrange : ∀ i ∈ List.range' 1 (values.length - 2),
        1 ≤ i ∧ i + 1 < values.length := by
      intro i hi
      rw [List.mem_range'_1] at hi
      omega
    obtain ⟨hmem, hch⟩ := peaks_foldl_inv values min_height min_distance
      (List.range' 1 (values.length - 2)) ⟨[], [], []⟩ hrange (by simp) (by simp)
    refine ⟨?_, hch, fun hlt => absurd hlt h3⟩
    intro i hi
    obtain ⟨h1, h2, hmax, hh⟩ := hmem i hi
    simp only [localMaxB, Bool.and_eq_true, decide_eq_true_eq] at hmax
    refine ⟨h1, h2, hmax.1, hmax.2, ?_⟩
    intro mh hmh
    subst hmh
    simpa [heightOkB] using hh

/-- C9 witness: on the input `[0, 4, 1]` with no height filter and distance
1, the peak at index 1 is interior, strictly above both neighbours, and
vacuously meets the (absent) height threshold. -/
theorem find_peaks_sound_witness :
    1 ≤ 1 ∧ 1 + 1 < ([(0:ℚ), 4, 1]).length ∧
    ([(0:ℚ), 4, 1]).getD 0 0 < ([(0:ℚ), 4, 1]).getD 1 0 ∧
    ([(0:ℚ), 4, 1]).getD 2 0 < ([(0:ℚ), 4, 1]).getD 1 0 ∧
    ∀ mh, (none : Option ℚ) = some mh → mh ≤ ([(0:ℚ), 4, 1]).getD 1 0 :=
  (find_peaks_sound [(0:ℚ), 4, 1] none 1).1 1 (by decide)

end SignalProcessor

namespace SignalProcessor

/-- With the default filters (`min_height = none`, `min_distance = 1`) the
scan of `find_peaks` keeps exactly the strict local maxima: the distance
filter never rejects, because accepted indices are visited in strictly
increasing order. -/
theorem peaks_foldl_default (vals : List ℚ) :
    ∀ (l : List ℕ) (acc : PeaksResult),
      l.Pairwise (· < ·) →
      (∀ p ∈ acc.peaks, ∀ i ∈ l, p < i) →
      (l.foldl (peakStep vals none 1) acc).peaks
        = acc.peaks ++ l.filter (fun i => localMaxB vals i) := by
  intro l
  induction l with
  | nil => intro acc _ _; simp
  | cons i l ih =>
    intro acc hpw hlt
    rw [List.foldl_cons]
    have hpw' := (List.pairwise_cons.1 hpw).2
    have hl_i := (List.pairwise_cons.1 hpw).1
    have hdist : distOkB acc.peaks 1 i = true := by
      rcases hlast : acc.peaks.getLast? with _ | p
      · simp [distOkB, hlast]
      · have hp : p ∈ acc.peaks := mem_of_getLast?_eq hlast
        have hpi := hlt p hp i (List.mem_cons_self i l)
        simp only [distOkB, hlast]
        simp
        omega
    by_cases hm : localMaxB vals i = true
    · have hcond :
          (localMaxB vals i && heightOkB vals none i && distOkB acc.peaks 1 i) = true := by
        simp [hm, heightOkB, hdist]
      have hstep : (peakStep vals none 1 acc i).peaks = acc.peaks ++ [i] := by
        simp only [peakStep, if_pos hcond]
      rw [ih (peakStep vals none 1 acc i) hpw' ?_]
      · rw [hstep, List.filter_cons_of_pos hm, List.append_assoc]
        rfl
      · intro p hp j hj
        rw [hstep] at hp
        rcases List.mem_append.1 hp with hp | hp
        · exact hlt p hp j (List.mem_cons_of_mem i hj)
        · rcases List.mem_singleton.1 hp with rfl
          exact hl_i j hj
    · have hcond :
          (localMaxB vals i && heightOkB vals none i && distOkB acc.peaks 1 i) = false := by
        have hmf : localMaxB vals i = false := by
          revert hm; cases localMaxB vals i <;> simp
        simp [hmf]
      have hstep : peakStep vals none 1 acc i = acc := by
        simp only [peakStep, hcond, if_false, Bool.false_eq_true]
      rw [hstep,
        ih acc hpw' (fun p hp j hj => hlt p hp j (List.mem_cons_of_mem i hj)),
        List.filter_cons_of_neg hm]

/-- A Boolean predicate holding exactly at one member of a duplicate-free
list filters the list to that singleton. -/
theorem filter_eq_singleton_of_iff {pred : ℕ → Bool} {p : ℕ} :
    ∀ {l : List ℕ}, l.Nodup → p ∈ l → (∀ i ∈ l, pred i = true ↔ i = p) →
      l.filter pred = [p] := by
  intro l
  induction l with
  | nil => intro _ hp _; cases hp
  | cons x xs ih =>
    intro hnd hp hiff
    have hx_notin := (List.nodup_cons.1 hnd).1
    have hnd' := (List.nodup_cons.1 hnd).2
    by_cases hxp : x = p
    · subst hxp
      rw [List.filter_cons_of_pos ((hiff x (List.mem_cons_self x xs)).2 rfl)]
      have hnil : xs.filter pred = [] := by
        rw [List.filter_eq_nil_iff]
        intro a ha hpa
        have : a = x := (hiff a (List.mem_cons_of_mem x ha)).1 hpa
        subst this
        exact hx_notin ha
      rw [hnil]
    · have hp' : p ∈ xs := by
        rcases List.mem_cons.1 hp with h | h
        · exact absurd h.symm hxp
        · exact h
      have hpx : pred x = false := by
        rcases hfb : pred x with _ | _
        · rfl
        · exact absurd ((hiff x (List.mem_cons_self x xs)).1 hfb) hxp
      rw [List.filter_cons_of_neg (by simp [hpx])]
      exact ih hnd' hp' (fun i hi => hiff i (List.mem_cons_of_mem x hi))

/-- C1: on a sequence of length at least 3 whose values strictly increase up
to an interior index `p` and strictly decrease after it, `find_peaks` with
its default filters (`min_height = none`, `min_distance = 1`) reports
exactly one peak, at index `p`. -/
theorem find_peaks_unimodal (values : List ℚ) (p : ℕ)
    (h3 : 3 ≤ values.length) (hp1 : 1 ≤ p) (hp2 : p + 1 < values.length)
    (hinc : ∀ i, i < p → values.getD i 0 < values.getD (i + 1) 0)
    (hdec : ∀ i, p ≤ i → i + 1 < values.length →
      values.getD (i + 1) 0 < values.getD i 0) :
    (find_peaks values none 1).peaks = [p] := by
  have hnotlt : ¬ values.length < 3 := not_lt.2 h3
  simp only [find_peaks, if_neg hnotlt]
  rw [peaks_foldl_default values (List.range' 1 (values.length - 2)) ⟨[], [], []⟩
    (List.pairwise_lt_range' 1 (values.length - 2)) (by intro q hq; cases hq)]
  rw [List.nil_append]
  apply filter_eq_singleton_of_iff
  · exact (List.pairwise_lt_range' 1 (values.length - 2)).imp ne_of_lt
  · rw [List.mem_range'_1]
    omega
  · intro i hi
    rw [List.mem_range'_1] at hi
    constructor
    · intro hmax
      simp only [localMaxB, Bool.and_eq_true, decide_eq_true_eq] at hmax
      by_contra hne
      rcases lt_or_gt_of_ne hne with hlt | hgt
      · have hstep := hinc i hlt
        exact absurd hmax.2 (not_lt.2 (le_of_lt (by
          have := hinc i hlt
          exact this)))
      · have hstep := hdec (i - 1) (by omega) (by omega)
        rw [show i - 1 + 1 = i by omega] at hstep
        exact absurd hmax.1 (not_lt.2 (le_of_lt hstep))
    · intro hip
      subst hip
      have e1 : values.getD (i - 1) 0 < values.getD i 0 := by
        have := hinc (i - 1) (by omega)
        rwa [show i - 1 + 1 = i by omega] at this
      have e2 := hdec i le_rfl hp2
      simp only [localMaxB, Bool.and_eq_true, decide_eq_true_eq]
      exact ⟨e1, e2⟩

/-- C1 witness: on `[1, 5, 2]`, which rises to index 1 and falls after it,
the default `find_peaks` reports exactly the peak `[1]`. -/
theorem find_peaks_unimodal_witness :
    (find_peaks [(1:ℚ), 5, 2] none 1).peaks = [1] :=
  find_peaks_unimodal [(1:ℚ), 5, 2] 1 (by norm_num) le_rfl (by norm_num)
    (by
      intro i hi
      have : i = 0 := by omega
      subst this
      decide)
    (by
      intro i hi1 hi2
      have : i = 1 := by
        simp only [List.length_cons, List.length_nil] at hi2
        omega
      subst this
      decide)

end SignalProcessor

namespace TelemetryLine

/-- Branch-free description of `SimpleTelemetryMonitor.parse_telemetry_line`:
the two marker branches run identical code, so the function decodes from the
first brace when either marker occurs. -/
theorem parse_telemetry_line_eq (line : List Char) :
    SimpleTelemetryMonitor.parse_telemetry_line line =
      (if (containsSub "TELEMETRY_OUTPUT:".data line ||
            containsSub "TELEM:".data line) = true then
        match afterFirstBrace line with
        | some sub => json_loads_chars sub
        | none => none
      else none) := by
  unfold SimpleTelemetryMonitor.parse_telemetry_line
  by_cases h1 : containsSub "TELEMETRY_OUTPUT:".data line = true
  · simp [h1]
  · simp only [Bool.not_eq_true] at h1
    simp [h1]

/-- C6 (amended): `SimpleTelemetryMonitor.parse_telemetry_line` returns the
JSON decoded from the suffix starting at the first left brace when the line
carries a telemetry marker and that suffix is valid JSON, and returns `none`
(without raising) when there is no marker, no brace, or the decode of that
suffix fails.  (The Streamlit variant deviates on the last point; see the
counterexample.) -/
theorem parse_telemetry_line_spec (line : List Char) :
    (∀ sub v,
      (containsSub "TELEMETRY_OUTPUT:".data line ||
        containsSub "TELEM:".data line) = true →
      afterFirstBrace line = some sub → json_loads_chars sub = some v →
      SimpleTelemetryMonitor.parse_telemetry_line line = some v) ∧
    ((containsSub "TELEMETRY_OUTPUT:".data line ||
        containsSub "TELEM:".data line) = false →
      SimpleTelemetryMonitor.parse_telemetry_line line = none) ∧
    (afterFirstBrace line = none →
      SimpleTelemetryMonitor.parse_telemetry_line line = none) ∧
    (∀ sub, afterFirstBrace line = some sub → json_loads_chars sub = none →
      SimpleTelemetryMonitor.parse_telemetry_line line = none) := by
  have heq := parse_telemetry_line_eq line
  refine ⟨?_, ?_, ?_, ?_⟩
  · intro sub v hmark hbrace hjson
    rw [heq, if_pos hmark, hbrace]
    exact hjson
  · intro hmark
    rw [heq, if_neg (by simp [hmark])]
  · intro hbrace
    rw [heq, hbrace]
    split_ifs <;> rfl
  · intro sub hbrace hjson
    rw [heq, hbrace]
    split_ifs with h
    · exact hjson
    · rfl

/-- C6 witness: a well-formed `TELEMETRY_OUTPUT:` line decodes to its JSON
object. -/
theorem parse_telemetry_line_spec_witness :
    SimpleTelemetryMonitor.parse_telemetry_line
        "TELEMETRY_OUTPUT: \x7b\"b\": 2\x7d".data
      = some (JsonValue.obj [("b", JsonValue.num "2")]) :=
  (parse_telemetry_line_spec "TELEMETRY_OUTPUT: \x7b\"b\": 2\x7d".data).1
    "\x7b\"b\": 2\x7d".data (JsonValue.obj [("b", JsonValue.num "2")]) rfl rfl rfl

/-- C6 counterexample: on the marker line whose text after the first brace
is not valid JSON (trailing ` x` after the object), the claim requires the
line to be dropped, but `BeepSatStreamlitDashboard.parse_telemetry_line`
still returns the object decoded from its greedy brace-to-brace regex
match. -/
theorem streamlit_parse_trailing_counterexample :
    containsSub "TELEM:".data "TELEM: \x7b\"a\": 1\x7d x".data = true ∧
    (afterFirstBrace "TELEM: \x7b\"a\": 1\x7d x".data).map json_loads_chars
      = some none ∧
    BeepSatStreamlitDashboard.parse_telemetry_line "TELEM: \x7b\"a\": 1\x7d x".data
      = some (JsonValue.obj [("a", JsonValue.num "1")]) :=
  ⟨rfl, rfl, rfl⟩

end TelemetryLine

namespace SignalProcessor

/-- C5 (amended): with a local window of at least 3 points,
`fit_gaussian_peak` returns the degenerate placeholder
(`r_squared = 0`, `peak_area = 0`, `fwhm = 0`, `quality = "poor"`) whenever
the normal-equations determinant is zero — the guarded division by zero of
the log-linearized fit.  (A non-positive curvature `b` does not trigger the
placeholder: the code substitutes the initial sigma estimate instead; see
the counterexample.) -/
theorem fit_gaussian_det_zero_placeholder (x_data y_data : List ℝ)
    (peak_idx : ℕ)
    (h3 : ¬ (localSlice y_data y_data peak_idx).length < 3)
    (hdet : fitDet x_data y_data peak_idx = 0) :
    fit_gaussian_peak x_data y_data peak_idx = some
      { amplitude := y_data.getD peak_idx 0 - fitBaseline y_data peak_idx
        center := x_data.getD peak_idx 0
        sigma := sigmaEst y_data peak_idx
        baseline := fitBaseline y_data peak_idx
        r_squared := 0
        peak_area := 0
        fwhm := 0
        quality := "poor" } := by
  simp only [fit_gaussian_peak]
  rw [if_neg h3, if_neg (not_not_intro hdet)]

/-- C5 witness: with constant `x_data` the centred x values vanish, the
determinant is zero, and the placeholder is returned. -/
theorem fit_gaussian_det_zero_placeholder_witness :
    ¬ (localSlice [(1:ℝ), 2, 3, 2, 1] [(1:ℝ), 2, 3, 2, 1] 2).length < 3 ∧
    fitDet [(1:ℝ), 1, 1, 1, 1] [(1:ℝ), 2, 3, 2, 1] 2 = 0 ∧
    fit_gaussian_peak [(1:ℝ), 1, 1, 1, 1] [(1:ℝ), 2, 3, 2, 1] 2 = some
      { amplitude := ([(1:ℝ), 2, 3, 2, 1]).getD 2 0 -
          fitBaseline [(1:ℝ), 2, 3, 2, 1] 2
        center := ([(1:ℝ), 1, 1, 1, 1]).getD 2 0
        sigma := sigmaEst [(1:ℝ), 2, 3, 2, 1] 2
        baseline := fitBaseline [(1:ℝ), 2, 3, 2, 1] 2
        r_squared := 0
        peak_area := 0
        fwhm := 0
        quality := "poor" } := by
  have hly : localSlice [(1:ℝ), 2, 3, 2, 1] [(1:ℝ), 2, 3, 2, 1] 2 = [2, 3, 2] := rfl
  have hlx : localSlice [(1:ℝ), 1, 1, 1, 1] [(1:ℝ), 2, 3, 2, 1] 2 = [1, 1, 1] := rfl
  have h3 : ¬ (localSlice [(1:ℝ), 2, 3, 2, 1] [(1:ℝ), 2, 3, 2, 1] 2).length < 3 := by
    rw [hly]
    norm_num
  have hxsq : xSquaredL [(1:ℝ), 1, 1, 1, 1] [(1:ℝ), 2, 3, 2, 1] 2 = [0, 0, 0] := by
    rw [xSquaredL, hlx]
    norm_num
  have hdet : fitDet [(1:ℝ), 1, 1, 1, 1] [(1:ℝ), 2, 3, 2, 1] 2 = 0 := by
    rw [fitDet, hxsq]
    norm_num
  exact ⟨h3, hdet, fit_gaussian_det_zero_placeholder _ _ _ h3 hdet⟩

/-- C5 counterexample: on a constant signal the fitted log-space curvature
`b` is zero — non-positive — yet `fit_gaussian_peak` does not return the
placeholder: it substitutes the sigma estimate `3/6` and reports
`fwhm = 2.355 * (3/6) ≠ 0`. -/
theorem fit_gaussian_nonpos_b_counterexample :
    fit_b [(0:ℝ), 1, 2, 3, 4] [(5:ℝ), 5, 5, 5, 5] 2 = 0 ∧
    (fit_gaussian_peak [(0:ℝ), 1, 2, 3, 4] [(5:ℝ), 5, 5, 5, 5] 2).map
        FitResult.fwhm = some (2.355 * ((3:ℝ) / 6)) ∧
    (2.355 * ((3:ℝ) / 6) : ℝ) ≠ 0 := by
  have hly : localSlice [(5:ℝ), 5, 5, 5, 5] [(5:ℝ), 5, 5, 5, 5] 2 = [5, 5, 5] := rfl
  have hlx : localSlice [(0:ℝ), 1, 2, 3, 4] [(5:ℝ), 5, 5, 5, 5] 2 = [1, 2, 3] := rfl
  have hbase : fitBaseline [(5:ℝ), 5, 5, 5, 5] 2 = 5 := by
    rw [fitBaseline, hly]
    norm_num
  have hlog : logYL [(5:ℝ), 5, 5, 5, 5] 2
      = [Real.log 0.001, Real.log 0.001, Real.log 0.001] := by
    rw [logYL, hly, hbase]
    norm_num
  have hxsq : xSquaredL [(0:ℝ), 1, 2, 3, 4] [(5:ℝ), 5, 5, 5, 5] 2 = [1, 0, 1] := by
    rw [xSquaredL, hlx]
    norm_num
  have hdet : fitDet [(0:ℝ), 1, 2, 3, 4] [(5:ℝ), 5, 5, 5, 5] 2 = 2 := by
    rw [fitDet, hxsq, hlog]
    norm_num
  have hb : fit_b [(0:ℝ), 1, 2, 3, 4] [(5:ℝ), 5, 5, 5, 5] 2 = 0 := by
    rw [fit_b, hxsq, hlog, hdet]
    simp only [List.zipWith, List.sum_cons, List.sum_nil, List.length_cons,
      List.length_nil]
    ring_nf
  have h3 : ¬ (localSlice [(5:ℝ), 5, 5, 5, 5] [(5:ℝ), 5, 5, 5, 5] 2).length < 3 := by
    rw [hly]
    norm_num
  have hdne : fitDet [(0:ℝ), 1, 2, 3, 4] [(5:ℝ), 5, 5, 5, 5] 2 ≠ 0 := by
    rw [hdet]
    norm_num
  have hsig : sigmaEst [(5:ℝ), 5, 5, 5, 5] 2 = (3:ℝ) / 6 := by
    rw [sigmaEst, hly]
    norm_num
  refine ⟨hb, ?_, by norm_num⟩
  simp only [fit_gaussian_peak]
  rw [if_neg h3, if_pos hdne, hb]
  rw [if_neg (lt_irrefl (0:ℝ))]
  rw [Option.map_some', hsig]

end SignalProcessor
